import Mathlib

/-!
# Verification of the `deen` indexing-and-lookup core

Shallow embedding of the C sources of the `deen` German–English dictionary
tool.  Byte strings are modelled as `List Nat` (each element a byte value);
a keyword set is a `List (List Nat)` in array order.

The embedded functions mirror, definition by definition, the code in
`src/core/keyword.c` and `src/core/install.c`.  Helpers that live in
`common.c` / `constants.h` (which are declared in `src/core/common.h` but
whose bodies are not part of the sources at hand) are modelled from the
specification and are marked as such in their doc comments.
-/

namespace Deen

/-- A byte string (C `uint8_t *` contents up to, and excluding, the NUL
terminator); each element is a byte value, meaningful values are `< 256`. -/
abbrev ByteStr := List Nat

/-- Modelled from the spec: C `isspace` in the "C" locale, used by
`deen_keywords_add_from_string` (`keyword.c` line 108) to tokenize on
whitespace.  True exactly on HT, LF, VT, FF, CR and space. -/
def isSpaceByte (c : Nat) : Bool :=
  c = 9 || c = 10 || c = 11 || c = 12 || c = 13 || c = 32

/-- Upper-case a single US-ASCII byte (`a`–`z` to `A`–`Z`), all other bytes
unchanged. -/
def upperAscii (c : Nat) : Nat :=
  if 97 ≤ c ∧ c ≤ 122 then c - 32 else c

/-- The second bytes of the two-byte lower-case sequences recognised by the
case folder: `ä ö ü ï ë` are `0xC3` followed by one of these. -/
def lowerUmlautSecondBytes : List Nat := [164, 182, 188, 175, 171]

/-- Modelled from the spec: `deen_to_upper` (declared in `common.h`, body in
`common.c` which is not among the sources).  Per the spec (§4.1): US-ASCII
`a–z` becomes `A–Z`; the two-byte German letters `ä ö ü ï ë` map to
`Ä Ö Ü Ï Ë` (second byte decreases by `0x20`); `ß` (0xC3 0x9F) and all other
code points are unchanged.  The rewrite is length preserving. -/
def deen_to_upper : ByteStr → ByteStr
  | [] => []
  | [c] => [upperAscii c]
  | c :: d :: rest =>
    if c = 195 ∧ d ∈ lowerUmlautSecondBytes then
      195 :: (d - 32) :: deen_to_upper rest
    else
      upperAscii c :: deen_to_upper (d :: rest)

/-- Modelled from the spec: the length classification of a UTF-8 sequence by
its leading byte, per RFC 3629 (`deen_utf8_sequence_len` in `common.c`, not
among the sources).  `none` models `DEEN_BAD_SEQUENCE` (continuation or
illegal leading byte). -/
def utf8LeadLen (c : Nat) : Option Nat :=
  if c ≤ 127 then some 1
  else if 194 ≤ c ∧ c ≤ 223 then some 2
  else if 224 ≤ c ∧ c ≤ 239 then some 3
  else if 240 ≤ c ∧ c ≤ 244 then some 4
  else none

/-- Worker for `deen_utf8_sequences_count`: `skip` is the number of
continuation bytes of the current sequence still to pass over; at `skip = 0`
the next byte is classified as a leading byte.  Running out of bytes with
`skip > 0` models `DEEN_INCOMPLETE_SEQUENCE`. -/
def seqCountAux : Nat → ByteStr → Option Nat
  | 0, [] => some 0
  | _ + 1, [] => none
  | 0, c :: rest =>
    match utf8LeadLen c with
    | none => none
    | some k => (seqCountAux (k - 1) rest).map (· + 1)
  | skip + 1, _ :: rest => seqCountAux skip rest

/-- Modelled from the spec: `deen_utf8_sequences_count` (body in `common.c`,
not among the sources).  Counts the UTF-8 sequences (Unicode code points) in
the buffer; `none` models the `DEEN_BAD_SEQUENCE` / `DEEN_INCOMPLETE_SEQUENCE`
outcomes (bad leading byte, or not enough trailing bytes). -/
def deen_utf8_sequences_count (l : ByteStr) : Option Nat :=
  seqCountAux 0 l

/-- A byte string is valid UTF-8 when the sequence counter succeeds on it. -/
def validUtf8 (l : ByteStr) : Bool :=
  (deen_utf8_sequences_count l).isSome

/-- The sequence count with the process-exit path collapsed to `0`
(`deen_keywords_sequence_count_or_exit` in `keyword.c` lines 16–36 exits the
process on invalid UTF-8; on valid keywords the two agree). -/
def seqCountE (l : ByteStr) : Nat :=
  (deen_utf8_sequences_count l).getD 0

/-- Modelled from the spec: `deen_utf8_crop_to_unicode_len` (body in
`common.c`, not among the sources).  Truncates the buffer to at most `n` code
points; returns the truncated bytes and the resulting code-point count
(which is `min n (total code points)` on valid input).  On an invalid or
incomplete sequence the walk stops there, keeping the complete sequences
already passed. -/
def deen_utf8_crop_to_unicode_len : ByteStr → Nat → ByteStr × Nat
  | _, 0 => ([], 0)
  | [], _ + 1 => ([], 0)
  | c :: rest, n + 1 =>
    match utf8LeadLen c with
    | none => ([], 0)
    | some k =>
      if rest.length + 1 < k then ([], 0)
      else
        let r := deen_utf8_crop_to_unicode_len (rest.drop (k - 1)) n
        (c :: rest.take (k - 1) ++ r.1, r.2 + 1)
termination_by l _ => l.length
decreasing_by
  simp only [List.length_drop, List.length_cons]
  omega

/-- Modelled from the spec: the compile-time common-word set
(`deen_is_common_upper_word` in `common.c`, not among the sources; the spec
§3 describes a fixed set of short upper-case German and English articles,
pronouns, conjunctions and auxiliaries, with examples `the`, `der`, `wir`;
scenario S4 relies on `der`). -/
def deen_common_upper_words : List ByteStr :=
  [ [84, 72, 69]       -- THE
  , [68, 69, 82]       -- DER
  , [68, 73, 69]       -- DIE
  , [68, 65, 83]       -- DAS
  , [87, 73, 82]       -- WIR
  , [85, 78, 68]       -- UND
  , [65, 78, 68] ]     -- AND

/-- Modelled from the spec: `deen_is_common_upper_word` — exact-match lookup
of the byte range in the common-word set. -/
def deen_is_common_upper_word (l : ByteStr) : Bool :=
  deen_common_upper_words.contains l

-- ---------------------------------------------------------------
-- keyword.c
-- ---------------------------------------------------------------

/-- Model of `deen_keywords_has_prefix` (`keyword.c` lines 83–95): scans the existing
keywords and reports whether `memcmp(keywords[i], t, |t|) == 0` for some `i`.
Because the stored keyword is NUL terminated and tokens contain no NUL byte,
the `memcmp` succeeds exactly when the new token `t` is a byte-wise prefix of
(or equal to) the stored keyword. -/
def deen_keywords_has_prefix_b (keywords : List ByteStr) (t : ByteStr) : Bool :=
  keywords.any (fun k => decide (t <+: k))

/-- Model of `strcmp(a, b) <= 0` on NUL-terminated byte strings: lexicographic byte
order in which a proper prefix precedes its extensions (the terminator `0` is
smaller than any token byte). -/
def strcmpLe : ByteStr → ByteStr → Bool
  | [], _ => true
  | _ :: _, [] => false
  | a :: as, b :: bs =>
    if a < b then true
    else if a = b then strcmpLe as bs
    else false

/-- Model of `deen_keywords_compare_length` (`keyword.c` lines 38–59) as a boolean
"may precede" relation: the comparator returns `<= 0` at `(a, b)` exactly
when either `a` has strictly more UTF-8 sequences than `b`, or they have the
same count and `strcmp(a, b) <= 0`. -/
def deen_keywords_compare_le (a b : ByteStr) : Bool :=
  if seqCountE a = seqCountE b then strcmpLe a b
  else decide (seqCountE b < seqCountE a)

/-- Insert into a list sorted by `deen_keywords_compare_le`.  Together with
`sortKeywords` this models the `qsort` call in
`deen_keywords_add_from_string` (`keyword.c` lines 141–145): `qsort` with a
valid comparator produces an array sorted under that comparator. -/
def insertKeyword (a : ByteStr) : List ByteStr → List ByteStr
  | [] => [a]
  | b :: bs =>
    if deen_keywords_compare_le a b then a :: b :: bs
    else b :: insertKeyword a bs

/-- Comparison sort under `deen_keywords_compare_le`; models the `qsort`
call of `deen_keywords_add_from_string`. -/
def sortKeywords (l : List ByteStr) : List ByteStr :=
  l.foldr insertKeyword []

/-- Worker for `tokenizeBytes`: carries the (reversed) bytes of the word
currently being scanned, mirroring the two inner `while` loops of
`deen_keywords_add_from_string`. -/
def tokenizeAux : Option ByteStr → ByteStr → List ByteStr
  | none, [] => []
  | some acc, [] => [acc.reverse]
  | none, c :: rest =>
    if isSpaceByte c then tokenizeAux none rest
    else tokenizeAux (some [c]) rest
  | some acc, c :: rest =>
    if isSpaceByte c then acc.reverse :: tokenizeAux none rest
    else tokenizeAux (some (c :: acc)) rest

/-- Maximal runs of non-whitespace bytes, in order: the tokenization loop of
`deen_keywords_add_from_string` (`keyword.c` lines 105–110). -/
def tokenizeBytes (l : ByteStr) : List ByteStr :=
  tokenizeAux none l

/-- The token-appending loop of `deen_keywords_add_from_string`
(`keyword.c` lines 105–135): each token of the uppercased input is appended
unless it is a common word or `deen_keywords_has_prefix` holds for it. -/
def addTokens (keywords : List ByteStr) : List ByteStr → List ByteStr
  | [] => keywords
  | t :: ts =>
    if !deen_is_common_upper_word t && !deen_keywords_has_prefix_b keywords t then
      addTokens (keywords ++ [t]) ts
    else
      addTokens keywords ts

/-- Model of `deen_keywords_add_from_string` (`keyword.c` lines 98–146): uppercase the
input in place, tokenize on whitespace, append surviving tokens, then sort
the whole keyword array with `deen_keywords_compare_length`. -/
def deen_keywords_add_from_string (keywords : List ByteStr) (input : ByteStr) :
    List ByteStr :=
  sortKeywords (addTokens keywords (tokenizeBytes (deen_to_upper input)))

-- ---------------------------------------------------------------
-- Order-theoretic facts about the keyword comparator
-- ---------------------------------------------------------------

theorem strcmpLe_total : ∀ a b : ByteStr, strcmpLe a b = true ∨ strcmpLe b a = true
  | [], _ => Or.inl rfl
  | _ :: _, [] => Or.inr rfl
  | a :: as, b :: bs => by
    by_cases hab : a < b
    · left; simp [strcmpLe, hab]
    · by_cases hba : b < a
      · right
        simp only [strcmpLe]
        rw [if_pos hba]
      · have hEq : a = b := Nat.le_antisymm (Nat.not_lt.mp hba) (Nat.not_lt.mp hab)
        subst hEq
        rcases strcmpLe_total as bs with h | h
        · left; simp [strcmpLe, h]
        · right; simp [strcmpLe, h]

theorem strcmpLe_trans :
    ∀ {a b c : ByteStr}, strcmpLe a b = true → strcmpLe b c = true →
      strcmpLe a c = true
  | [], _, _, _, _ => rfl
  | _ :: _, [], _, h1, _ => by simp [strcmpLe] at h1
  | _ :: _, _ :: _, [], _, h2 => by simp [strcmpLe] at h2
  | a :: as, b :: bs, c :: cs, h1, h2 => by
    simp only [strcmpLe] at h1 h2 ⊢
    by_cases hab : a < b
    · by_cases hbc : b < c
      · rw [if_pos (Nat.lt_trans hab hbc)]
      · by_cases hbceq : b = c
        · subst hbceq; rw [if_pos hab]
        · rw [if_neg hbc, if_neg hbceq] at h2; exact absurd h2 (by simp)
    · by_cases habeq : a = b
      · subst habeq
        rw [if_neg hab, if_pos rfl] at h1
        by_cases hbc : a < c
        · rw [if_pos hbc]
        · by_cases hbceq : a = c
          · subst hbceq
            rw [if_neg hbc, if_pos rfl] at h2 ⊢
            exact strcmpLe_trans h1 h2
          · rw [if_neg hbc, if_neg hbceq] at h2; exact absurd h2 (by simp)
      · rw [if_neg hab, if_neg habeq] at h1; exact absurd h1 (by simp)

theorem compare_le_total (a b : ByteStr) :
    deen_keywords_compare_le a b = true ∨ deen_keywords_compare_le b a = true := by
  unfold deen_keywords_compare_le
  by_cases h : seqCountE a = seqCountE b
  · rw [if_pos h, if_pos h.symm]
    exact strcmpLe_total a b
  · rw [if_neg h, if_neg (fun hh => h hh.symm)]
    rcases Nat.lt_or_ge (seqCountE a) (seqCountE b) with hlt | hge
    · right; exact decide_eq_true hlt
    · left
      exact decide_eq_true (Nat.lt_of_le_of_ne hge (fun hh => h hh.symm))

theorem compare_le_trans {a b c : ByteStr}
    (h1 : deen_keywords_compare_le a b = true)
    (h2 : deen_keywords_compare_le b c = true) :
    deen_keywords_compare_le a c = true := by
  unfold deen_keywords_compare_le at h1 h2 ⊢
  by_cases hab : seqCountE a = seqCountE b
  · rw [if_pos hab] at h1
    by_cases hbc : seqCountE b = seqCountE c
    · rw [if_pos hbc] at h2
      rw [if_pos (hab.trans hbc)]
      exact strcmpLe_trans h1 h2
    · rw [if_neg hbc, decide_eq_true_eq] at h2
      rw [if_neg (by omega), decide_eq_true_eq]
      omega
  · rw [if_neg hab, decide_eq_true_eq] at h1
    by_cases hbc : seqCountE b = seqCountE c
    · rw [if_pos hbc] at h2
      rw [if_neg (by omega), decide_eq_true_eq]
      omega
    · rw [if_neg hbc, decide_eq_true_eq] at h2
      rw [if_neg (by omega), decide_eq_true_eq]
      omega

-- ---------------------------------------------------------------
-- Sorting lemmas for the qsort model
-- ---------------------------------------------------------------

theorem mem_insertKeyword {c a : ByteStr} :
    ∀ {l : List ByteStr}, c ∈ insertKeyword a l ↔ c = a ∨ c ∈ l
  | [] => by simp [insertKeyword]
  | b :: bs => by
    simp only [insertKeyword]
    split_ifs with h
    · simp [or_comm, or_assoc]
    · simp only [List.mem_cons, mem_insertKeyword (l := bs)]
      tauto

theorem perm_insertKeyword (a : ByteStr) :
    ∀ l : List ByteStr, (insertKeyword a l).Perm (a :: l)
  | [] => List.Perm.refl _
  | b :: bs => by
    simp only [insertKeyword]
    split_ifs with h
    · exact List.Perm.refl _
    · exact ((perm_insertKeyword a bs).cons b).trans (List.Perm.swap a b bs)

theorem perm_sortKeywords : ∀ l : List ByteStr, (sortKeywords l).Perm l
  | [] => List.Perm.refl _
  | a :: l => by
    simp only [sortKeywords, List.foldr_cons]
    exact (perm_insertKeyword a (List.foldr insertKeyword [] l)).trans
      ((perm_sortKeywords l).cons a)

theorem pairwise_insertKeyword {a : ByteStr} :
    ∀ {l : List ByteStr},
      l.Pairwise (fun x y => deen_keywords_compare_le x y = true) →
      (insertKeyword a l).Pairwise (fun x y => deen_keywords_compare_le x y = true)
  | [], _ => List.Pairwise.cons (by simp) List.Pairwise.nil
  | b :: bs, h => by
    rcases List.pairwise_cons.mp h with ⟨hb, hbs⟩
    simp only [insertKeyword]
    split_ifs with hab
    · refine List.pairwise_cons.mpr ⟨?_, h⟩
      intro c hc
      rcases List.mem_cons.mp hc with rfl | hc
      · exact hab
      · exact compare_le_trans hab (hb c hc)
    · have hba : deen_keywords_compare_le b a = true := by
        rcases compare_le_total a b with hh | hh
        · exact absurd hh hab
        · exact hh
      refine List.pairwise_cons.mpr ⟨?_, pairwise_insertKeyword hbs⟩
      intro c hc
      rcases mem_insertKeyword.mp hc with rfl | hc
      · exact hba
      · exact hb c hc

theorem pairwise_sortKeywords : ∀ l : List ByteStr,
    (sortKeywords l).Pairwise (fun x y => deen_keywords_compare_le x y = true)
  | [] => List.Pairwise.nil
  | a :: l => by
    simp only [sortKeywords, List.foldr_cons]
    exact pairwise_insertKeyword (pairwise_sortKeywords l)

-- ---------------------------------------------------------------
-- Invariant of the token-appending loop
-- ---------------------------------------------------------------

theorem addTokens_pairwise :
    ∀ (ts : List ByteStr) (K : List ByteStr),
      K.Pairwise (fun a b => ¬ b <+: a) →
      (addTokens K ts).Pairwise (fun a b => ¬ b <+: a)
  | [], _, hK => hK
  | t :: ts, K, hK => by
    simp only [addTokens]
    split_ifs with h
    · refine addTokens_pairwise ts (K ++ [t]) ?_
      rw [List.pairwise_append]
      refine ⟨hK, List.pairwise_singleton _ _, ?_⟩
      intro a ha b hb
      rcases List.mem_singleton.mp hb with rfl
      simp only [Bool.and_eq_true, Bool.not_eq_true'] at h
      have h2 := h.2
      simp only [deen_keywords_has_prefix_b, List.any_eq_false,
        decide_eq_true_eq] at h2
      exact fun hc => h2 a ha hc
    · exact addTokens_pairwise ts K hK

/-- C1 (corrected).  The original claim — the keyword set is byte-prefix
free in both directions regardless of token order — fails (see the
counterexample).  What `deen_keywords_has_prefix` actually enforces: a token
is dropped exactly when it is a byte-prefix of (or equal to) an
already-present keyword, so in insertion order no keyword is a byte-prefix
of any earlier-added keyword (in particular there are no duplicates), and
the final sorted set of `deen_keywords_add_from_string` is a permutation of
that insertion-order list. -/
theorem keywords_insertion_order_prefix_free (K : List ByteStr) (input : ByteStr)
    (hK : K.Pairwise (fun a b => ¬ b <+: a)) :
    (addTokens K (tokenizeBytes (deen_to_upper input))).Pairwise
      (fun a b => ¬ b <+: a) ∧
    (deen_keywords_add_from_string K input).Perm
      (addTokens K (tokenizeBytes (deen_to_upper input))) :=
  ⟨addTokens_pairwise _ K hK, perm_sortKeywords _⟩

/-- Witness for `keywords_insertion_order_prefix_free` at the empty initial
set and the input `"xy xyz"`. -/
theorem keywords_insertion_order_prefix_free_witness :
    (addTokens [] (tokenizeBytes
        (deen_to_upper [120, 121, 32, 120, 121, 122]))).Pairwise
      (fun a b => ¬ b <+: a) ∧
    (deen_keywords_add_from_string [] [120, 121, 32, 120, 121, 122]).Perm
      (addTokens [] (tokenizeBytes (deen_to_upper [120, 121, 32, 120, 121, 122]))) :=
  keywords_insertion_order_prefix_free [] [120, 121, 32, 120, 121, 122]
    List.Pairwise.nil

/-- C1 counterexample.  On input `"xy xyz"` the resulting keyword set
contains both `XY` and `XYZ`, and `XY` is a proper byte-prefix of `XYZ`: the
set is not prefix-free, refuting the claim that the invariant holds
regardless of the order in which tokens appear. -/
theorem keywords_prefix_free_counterexample :
    [88, 89] ∈ deen_keywords_add_from_string [] [120, 121, 32, 120, 121, 122] ∧
    [88, 89, 90] ∈ deen_keywords_add_from_string [] [120, 121, 32, 120, 121, 122] ∧
    [88, 89] <+: [88, 89, 90] ∧ [88, 89] ≠ [88, 89, 90] := by
  refine ⟨by decide, by decide, ⟨[90], rfl⟩, by decide⟩

/-- C2 (confirmed).  After `deen_keywords_add_from_string` returns, the
keyword array is sorted by the order of `deen_keywords_compare_length`:
descending UTF-8 sequence (Unicode character) count, ties broken by
ascending lexicographic byte order (`strcmp`). -/
theorem keywords_sorted_desc_charcount_ties_lex (K : List ByteStr) (input : ByteStr) :
    (deen_keywords_add_from_string K input).Pairwise (fun a b =>
      seqCountE b < seqCountE a ∨
      (seqCountE a = seqCountE b ∧ strcmpLe a b = true)) := by
  refine (pairwise_sortKeywords _).imp ?_
  intro a b hab
  unfold deen_keywords_compare_le at hab
  split_ifs at hab with h
  · exact Or.inr ⟨h, hab⟩
  · exact Or.inl (of_decide_eq_true hab)

-- ---------------------------------------------------------------
-- Umlaut recovery: deen_keywords_adjust (keyword.c lines 176–234)
-- ---------------------------------------------------------------

/-- One pass of `deen_keywords_single_substitute_german_usascii_abbreviations`
(`keyword.c` lines 176–192): scan left to right, overwrite each found
occurrence of the two-byte pattern `sx sy` with `rx ry` in place, and resume
the search one byte after the replacement.  Because `ry` is always a byte
`≥ 0x80` while the pattern bytes are ASCII, no occurrence can start on the
freshly written `ry`, so resuming at `+1` coincides with resuming at `+2` as
modelled here.  Returns the rewritten bytes and whether any replacement
happened. -/
def substDigraph (sx sy rx ry : Nat) : ByteStr → ByteStr × Bool
  | [] => ([], false)
  | [c] => ([c], false)
  | c :: d :: rest =>
    if c = sx ∧ d = sy then
      (rx :: ry :: (substDigraph sx sy rx ry rest).1, true)
    else
      (c :: (substDigraph sx sy rx ry (d :: rest)).1,
        (substDigraph sx sy rx ry (d :: rest)).2)

/-- Model of `deen_keywords_substitute_german_usascii_abbreviations` (`keyword.c`
lines 195–220): the six digraph passes in source order `EE UE OE AE IE SS`,
replacement bytes being the two-byte UTF-8 encodings of `Ë Ü Ö Ä Ï ß`; the
per-pass flags are combined with non-short-circuiting `|`. -/
def deen_keywords_substitute_german_usascii_abbreviations (value : ByteStr) :
    ByteStr × Bool :=
  let r1 := substDigraph 69 69 195 139 value      -- "EE" → Ë (0xC3 0x8B)
  let r2 := substDigraph 85 69 195 156 r1.1       -- "UE" → Ü (0xC3 0x9C)
  let r3 := substDigraph 79 69 195 150 r2.1       -- "OE" → Ö (0xC3 0x96)
  let r4 := substDigraph 65 69 195 132 r3.1       -- "AE" → Ä (0xC3 0x84)
  let r5 := substDigraph 73 69 195 143 r4.1       -- "IE" → Ï (0xC3 0x8F)
  let r6 := substDigraph 83 83 195 159 r5.1       -- "SS" → ß (0xC3 0x9F)
  (r6.1, r1.2 || r2.2 || r3.2 || r4.2 || r5.2 || r6.2)

/-- Model of `deen_keywords_adjust` (`keyword.c` lines 226–234): substitute in every
keyword in place, OR-ing the per-keyword flags. -/
def deen_keywords_adjust (keywords : List ByteStr) : List ByteStr × Bool :=
  (keywords.map (fun k => (deen_keywords_substitute_german_usascii_abbreviations k).1),
   keywords.any (fun k => (deen_keywords_substitute_german_usascii_abbreviations k).2))

/-- Predicate `noPair x y l` holds when the two-byte sequence `x y` does not occur in
`l` (no adjacent pair of bytes equals `(x, y)`). -/
def noPair (x y : Nat) : ByteStr → Bool
  | [] => true
  | [_] => true
  | a :: b :: rest => !(a = x && b = y) && noPair x y (b :: rest)

theorem noPair_tail {x y a : Nat} :
    ∀ {l : ByteStr}, noPair x y (a :: l) = true → noPair x y l = true
  | [], _ => rfl
  | _ :: _, h => (Bool.and_eq_true_iff.mp h).2

theorem noPair_cons_of_ne {x y a : Nat} {l : ByteStr} (ha : a ≠ x)
    (hl : noPair x y l = true) : noPair x y (a :: l) = true := by
  cases l with
  | nil => rfl
  | cons b t =>
    simp only [noPair, Bool.and_eq_true, Bool.not_eq_true', Bool.and_eq_false_iff,
      decide_eq_false_iff_not]
    exact ⟨Or.inl ha, hl⟩

theorem noPair_cons₂ {x y a b : Nat} {l : ByteStr} (h : ¬(a = x ∧ b = y))
    (hl : noPair x y (b :: l) = true) : noPair x y (a :: b :: l) = true := by
  simp only [noPair, Bool.and_eq_true, Bool.not_eq_true', Bool.and_eq_false_iff,
    decide_eq_false_iff_not]
  exact ⟨by tauto, hl⟩

/-- The head of a `substDigraph` result is either the original head or the
first replacement byte. -/
theorem substDigraph_head (sx sy rx ry : Nat) :
    ∀ (c : Nat) (l : ByteStr), ∃ t : ByteStr,
      (substDigraph sx sy rx ry (c :: l)).1 = c :: t ∨
      (substDigraph sx sy rx ry (c :: l)).1 = rx :: t := by
  intro c l
  cases l with
  | nil => exact ⟨[], Or.inl rfl⟩
  | cons d rest =>
    simp only [substDigraph]
    split_ifs with h
    · exact ⟨_, Or.inr rfl⟩
    · exact ⟨_, Or.inl rfl⟩

theorem substDigraph_length (sx sy rx ry : Nat) :
    ∀ l : ByteStr, (substDigraph sx sy rx ry l).1.length = l.length
  | [] => rfl
  | [_] => rfl
  | c :: d :: rest => by
    simp only [substDigraph]
    split_ifs with h
    · simp [substDigraph_length sx sy rx ry rest]
    · simp [substDigraph_length sx sy rx ry (d :: rest)]

/-- A pass over a string free of its pattern is the identity and reports no
substitution. -/
theorem substDigraph_of_noPair {sx sy : Nat} (rx ry : Nat) :
    ∀ {l : ByteStr}, noPair sx sy l = true → substDigraph sx sy rx ry l = (l, false)
  | [], _ => rfl
  | [_], _ => rfl
  | c :: d :: rest, h => by
    have hp : ¬(c = sx ∧ d = sy) := by
      have := (Bool.and_eq_true_iff.mp h).1
      simp only [Bool.not_eq_true', Bool.and_eq_false_iff,
        decide_eq_false_iff_not] at this
      tauto
    have ht := substDigraph_of_noPair (l := d :: rest) rx ry (noPair_tail h)
    simp only [substDigraph, if_neg hp, ht]

/-- After a pass, the pattern of that pass no longer occurs, provided the
pattern bytes are ASCII and the replacement bytes are not. -/
theorem substDigraph_noPair_self {sx sy rx ry : Nat}
    (hsx : sx ≤ 127) (hsy : sy ≤ 127) (hrx : 128 ≤ rx) (hry : 128 ≤ ry) :
    ∀ l : ByteStr, noPair sx sy (substDigraph sx sy rx ry l).1 = true
  | [] => rfl
  | [_] => rfl
  | c :: d :: rest => by
    have hrxs : rx ≠ sx := by omega
    have hrys : ry ≠ sx := by omega
    simp only [substDigraph]
    split_ifs with h
    · show noPair sx sy (rx :: ry :: (substDigraph sx sy rx ry rest).1) = true
      exact noPair_cons_of_ne hrxs (noPair_cons_of_ne hrys
        (substDigraph_noPair_self hsx hsy hrx hry rest))
    · show noPair sx sy (c :: (substDigraph sx sy rx ry (d :: rest)).1) = true
      have ih := @substDigraph_noPair_self sx sy rx ry hsx hsy hrx hry (d :: rest)
      rcases substDigraph_head sx sy rx ry d rest with ⟨t, ht | ht⟩
      · rw [ht] at ih ⊢
        exact noPair_cons₂ h ih
      · rw [ht] at ih ⊢
        refine noPair_cons₂ (fun hc => ?_) ih
        omega

/-- A pass for one pattern cannot create occurrences of another ASCII
two-byte pattern, since it only writes non-ASCII bytes. -/
theorem substDigraph_noPair_other {x y : Nat} (sx sy rx ry : Nat)
    (hx : x ≤ 127) (hy : y ≤ 127) (hrx : 128 ≤ rx) (hry : 128 ≤ ry) :
    ∀ l : ByteStr, noPair x y l = true →
      noPair x y (substDigraph sx sy rx ry l).1 = true
  | [], _ => rfl
  | [_], _ => rfl
  | c :: d :: rest, hl => by
    have hrxs : rx ≠ x := by omega
    have hrys : ry ≠ x := by omega
    simp only [substDigraph]
    split_ifs with h
    · show noPair x y (rx :: ry :: (substDigraph sx sy rx ry rest).1) = true
      exact noPair_cons_of_ne hrxs (noPair_cons_of_ne hrys
        (substDigraph_noPair_other sx sy rx ry hx hy hrx hry rest
          (noPair_tail (noPair_tail hl))))
    · show noPair x y (c :: (substDigraph sx sy rx ry (d :: rest)).1) = true
      have hp : ¬(c = x ∧ d = y) := by
        have := (Bool.and_eq_true_iff.mp hl).1
        simp only [Bool.not_eq_true', Bool.and_eq_false_iff,
          decide_eq_false_iff_not] at this
        tauto
      have ih := substDigraph_noPair_other sx sy rx ry hx hy hrx hry (d :: rest)
        (noPair_tail hl)
      rcases substDigraph_head sx sy rx ry d rest with ⟨t, ht | ht⟩
      · rw [ht] at ih ⊢
        exact noPair_cons₂ hp ih
      · rw [ht] at ih ⊢
        refine noPair_cons₂ (fun hc => ?_) ih
        omega

/-- The count of non-ASCII bytes (used to show that a substitution really
changes the string and stays changed across later passes). -/
def countHigh (l : ByteStr) : Nat :=
  l.countP (fun b => decide (128 ≤ b))

theorem countHigh_cons (a : Nat) (l : ByteStr) :
    countHigh (a :: l) = countHigh l + (if 128 ≤ a then 1 else 0) := by
  simp only [countHigh, List.countP_cons, decide_eq_true_eq]

theorem substDigraph_countHigh_le {sx sy rx ry : Nat}
    (hsx : sx ≤ 127) (hsy : sy ≤ 127) (hrx : 128 ≤ rx) (hry : 128 ≤ ry) :
    ∀ l : ByteStr, countHigh l ≤ countHigh (substDigraph sx sy rx ry l).1
  | [] => Nat.le_refl _
  | [_] => Nat.le_refl _
  | c :: d :: rest => by
    simp only [substDigraph]
    split_ifs with h
    · obtain ⟨hc, hd⟩ := h
      show countHigh (c :: d :: rest) ≤
        countHigh (rx :: ry :: (substDigraph sx sy rx ry rest).1)
      have ih := @substDigraph_countHigh_le sx sy rx ry hsx hsy hrx hry rest
      simp only [countHigh_cons]
      split_ifs <;> omega
    · show countHigh (c :: d :: rest) ≤
        countHigh (c :: (substDigraph sx sy rx ry (d :: rest)).1)
      have ih := @substDigraph_countHigh_le sx sy rx ry hsx hsy hrx hry (d :: rest)
      simp only [countHigh_cons] at ih ⊢
      split_ifs at ih ⊢ <;> omega

theorem substDigraph_countHigh_lt {sx sy rx ry : Nat}
    (hsx : sx ≤ 127) (hsy : sy ≤ 127) (hrx : 128 ≤ rx) (hry : 128 ≤ ry) :
    ∀ l : ByteStr, (substDigraph sx sy rx ry l).2 = true →
      countHigh l < countHigh (substDigraph sx sy rx ry l).1
  | [], hf => by simp [substDigraph] at hf
  | [_], hf => by simp [substDigraph] at hf
  | c :: d :: rest, hf => by
    simp only [substDigraph] at hf ⊢
    split_ifs at hf ⊢ with h
    · obtain ⟨hc, hd⟩ := h
      show countHigh (c :: d :: rest) <
        countHigh (rx :: ry :: (substDigraph sx sy rx ry rest).1)
      have ih := @substDigraph_countHigh_le sx sy rx ry hsx hsy hrx hry rest
      simp only [countHigh_cons]
      split_ifs <;> omega
    · show countHigh (c :: d :: rest) <
        countHigh (c :: (substDigraph sx sy rx ry (d :: rest)).1)
      have hf2 : (substDigraph sx sy rx ry (d :: rest)).2 = true := hf
      have ih := @substDigraph_countHigh_lt sx sy rx ry hsx hsy hrx hry
        (d :: rest) hf2
      simp only [countHigh_cons] at ih ⊢
      split_ifs at ih ⊢ <;> omega

theorem substDigraph_id_of_flag_false (sx sy rx ry : Nat) :
    ∀ l : ByteStr, (substDigraph sx sy rx ry l).2 = false →
      (substDigraph sx sy rx ry l).1 = l
  | [], _ => rfl
  | [_], _ => rfl
  | c :: d :: rest, hf => by
    simp only [substDigraph] at hf ⊢
    split_ifs at hf ⊢ with h
    show c :: (substDigraph sx sy rx ry (d :: rest)).1 = c :: d :: rest
    have hf2 : (substDigraph sx sy rx ry (d :: rest)).2 = false := hf
    rw [substDigraph_id_of_flag_false sx sy rx ry (d :: rest) hf2]

/-- The first component of the six-pass substitution, unfolded. -/
theorem substAll_fst (l : ByteStr) :
    (deen_keywords_substitute_german_usascii_abbreviations l).1 =
      (substDigraph 83 83 195 159 (substDigraph 73 69 195 143 (substDigraph 65 69
        195 132 (substDigraph 79 69 195 150 (substDigraph 85 69 195 156
        (substDigraph 69 69 195 139 l).1).1).1).1).1).1 := rfl

/-- The flag of the six-pass substitution, unfolded. -/
theorem substAll_snd (l : ByteStr) :
    (deen_keywords_substitute_german_usascii_abbreviations l).2 =
      ((((((substDigraph 69 69 195 139 l).2 ||
        (substDigraph 85 69 195 156 (substDigraph 69 69 195 139 l).1).2) ||
        (substDigraph 79 69 195 150 (substDigraph 85 69 195 156
          (substDigraph 69 69 195 139 l).1).1).2) ||
        (substDigraph 65 69 195 132 (substDigraph 79 69 195 150 (substDigraph 85
          69 195 156 (substDigraph 69 69 195 139 l).1).1).1).2) ||
        (substDigraph 73 69 195 143 (substDigraph 65 69 195 132 (substDigraph 79
          69 195 150 (substDigraph 85 69 195 156 (substDigraph 69 69 195 139
          l).1).1).1).1).2) ||
        (substDigraph 83 83 195 159 (substDigraph 73 69 195 143 (substDigraph 65
          69 195 132 (substDigraph 79 69 195 150 (substDigraph 85 69 195 156
          (substDigraph 69 69 195 139 l).1).1).1).1).1).2) := rfl

/-- After the six passes none of the six digraphs occurs any more. -/
theorem substAll_noPair_all (l : ByteStr) :
    noPair 69 69 (deen_keywords_substitute_german_usascii_abbreviations l).1 = true ∧
    noPair 85 69 (deen_keywords_substitute_german_usascii_abbreviations l).1 = true ∧
    noPair 79 69 (deen_keywords_substitute_german_usascii_abbreviations l).1 = true ∧
    noPair 65 69 (deen_keywords_substitute_german_usascii_abbreviations l).1 = true ∧
    noPair 73 69 (deen_keywords_substitute_german_usascii_abbreviations l).1 = true ∧
    noPair 83 83 (deen_keywords_substitute_german_usascii_abbreviations l).1 = true := by
  rw [substAll_fst]
  refine ⟨?_, ?_, ?_, ?_, ?_, ?_⟩
  · apply substDigraph_noPair_other 83 83 195 159 (by decide) (by decide)
      (by decide) (by decide)
    apply substDigraph_noPair_other 73 69 195 143 (by decide) (by decide)
      (by decide) (by decide)
    apply substDigraph_noPair_other 65 69 195 132 (by decide) (by decide)
      (by decide) (by decide)
    apply substDigraph_noPair_other 79 69 195 150 (by decide) (by decide)
      (by decide) (by decide)
    apply substDigraph_noPair_other 85 69 195 156 (by decide) (by decide)
      (by decide) (by decide)
    exact substDigraph_noPair_self (by decide) (by decide) (by decide) (by decide) l
  · apply substDigraph_noPair_other 83 83 195 159 (by decide) (by decide)
      (by decide) (by decide)
    apply substDigraph_noPair_other 73 69 195 143 (by decide) (by decide)
      (by decide) (by decide)
    apply substDigraph_noPair_other 65 69 195 132 (by decide) (by decide)
      (by decide) (by decide)
    apply substDigraph_noPair_other 79 69 195 150 (by decide) (by decide)
      (by decide) (by decide)
    exact substDigraph_noPair_self (by decide) (by decide) (by decide) (by decide) _
  · apply substDigraph_noPair_other 83 83 195 159 (by decide) (by decide)
      (by decide) (by decide)
    apply substDigraph_noPair_other 73 69 195 143 (by decide) (by decide)
      (by decide) (by decide)
    apply substDigraph_noPair_other 65 69 195 132 (by decide) (by decide)
      (by decide) (by decide)
    exact substDigraph_noPair_self (by decide) (by decide) (by decide) (by decide) _
  · apply substDigraph_noPair_other 83 83 195 159 (by decide) (by decide)
      (by decide) (by decide)
    apply substDigraph_noPair_other 73 69 195 143 (by decide) (by decide)
      (by decide) (by decide)
    exact substDigraph_noPair_self (by decide) (by decide) (by decide) (by decide) _
  · apply substDigraph_noPair_other 83 83 195 159 (by decide) (by decide)
      (by decide) (by decide)
    exact substDigraph_noPair_self (by decide) (by decide) (by decide) (by decide) _
  · exact substDigraph_noPair_self (by decide) (by decide) (by decide) (by decide) _

theorem substAll_length (l : ByteStr) :
    (deen_keywords_substitute_german_usascii_abbreviations l).1.length = l.length := by
  rw [substAll_fst]
  simp [substDigraph_length]

theorem substAll_id_of_flag_false (l : ByteStr)
    (hf : (deen_keywords_substitute_german_usascii_abbreviations l).2 = false) :
    (deen_keywords_substitute_german_usascii_abbreviations l).1 = l := by
  rw [substAll_snd] at hf
  simp only [Bool.or_eq_false_iff] at hf
  obtain ⟨⟨⟨⟨⟨h1, h2⟩, h3⟩, h4⟩, h5⟩, h6⟩ := hf
  have e1 := substDigraph_id_of_flag_false 69 69 195 139 l h1
  rw [e1] at h2 h3 h4 h5 h6
  have e2 := substDigraph_id_of_flag_false 85 69 195 156 l h2
  rw [e2] at h3 h4 h5 h6
  have e3 := substDigraph_id_of_flag_false 79 69 195 150 l h3
  rw [e3] at h4 h5 h6
  have e4 := substDigraph_id_of_flag_false 65 69 195 132 l h4
  rw [e4] at h5 h6
  have e5 := substDigraph_id_of_flag_false 73 69 195 143 l h5
  rw [e5] at h6
  have e6 := substDigraph_id_of_flag_false 83 83 195 159 l h6
  rw [substAll_fst, e1, e2, e3, e4, e5, e6]

theorem substAll_countHigh_lt (l : ByteStr)
    (hf : (deen_keywords_substitute_german_usascii_abbreviations l).2 = true) :
    countHigh l < countHigh (deen_keywords_substitute_german_usascii_abbreviations l).1 := by
  rw [substAll_snd] at hf
  rw [substAll_fst]
  have le1 := @substDigraph_countHigh_le 69 69 195 139 (by decide) (by decide)
    (by decide) (by decide) l
  have le2 := @substDigraph_countHigh_le 85 69 195 156 (by decide) (by decide)
    (by decide) (by decide) (substDigraph 69 69 195 139 l).1
  have le3 := @substDigraph_countHigh_le 79 69 195 150 (by decide) (by decide)
    (by decide) (by decide) (substDigraph 85 69 195 156
      (substDigraph 69 69 195 139 l).1).1
  have le4 := @substDigraph_countHigh_le 65 69 195 132 (by decide) (by decide)
    (by decide) (by decide) (substDigraph 79 69 195 150 (substDigraph 85 69 195
      156 (substDigraph 69 69 195 139 l).1).1).1
  have le5 := @substDigraph_countHigh_le 73 69 195 143 (by decide) (by decide)
    (by decide) (by decide) (substDigraph 65 69 195 132 (substDigraph 79 69 195
      150 (substDigraph 85 69 195 156 (substDigraph 69 69 195 139 l).1).1).1).1
  have le6 := @substDigraph_countHigh_le 83 83 195 159 (by decide) (by decide)
    (by decide) (by decide) (substDigraph 73 69 195 143 (substDigraph 65 69 195
      132 (substDigraph 79 69 195 150 (substDigraph 85 69 195 156 (substDigraph
      69 69 195 139 l).1).1).1).1).1
  simp only [Bool.or_eq_true] at hf
  rcases hf with ((((h | h) | h) | h) | h) | h
  · have lt1 := @substDigraph_countHigh_lt 69 69 195 139 (by decide) (by decide)
      (by decide) (by decide) l h
    omega
  · have lt2 := @substDigraph_countHigh_lt 85 69 195 156 (by decide) (by decide)
      (by decide) (by decide) (substDigraph 69 69 195 139 l).1 h
    omega
  · have lt3 := @substDigraph_countHigh_lt 79 69 195 150 (by decide) (by decide)
      (by decide) (by decide) (substDigraph 85 69 195 156
        (substDigraph 69 69 195 139 l).1).1 h
    omega
  · have lt4 := @substDigraph_countHigh_lt 65 69 195 132 (by decide) (by decide)
      (by decide) (by decide) (substDigraph 79 69 195 150 (substDigraph 85 69
        195 156 (substDigraph 69 69 195 139 l).1).1).1 h
    omega
  · have lt5 := @substDigraph_countHigh_lt 73 69 195 143 (by decide) (by decide)
      (by decide) (by decide) (substDigraph 65 69 195 132 (substDigraph 79 69
        195 150 (substDigraph 85 69 195 156 (substDigraph 69 69 195 139
        l).1).1).1).1 h
    omega
  · have lt6 := @substDigraph_countHigh_lt 83 83 195 159 (by decide) (by decide)
      (by decide) (by decide) (substDigraph 73 69 195 143 (substDigraph 65 69
        195 132 (substDigraph 79 69 195 150 (substDigraph 85 69 195 156
        (substDigraph 69 69 195 139 l).1).1).1).1).1 h
    omega

theorem substAll_ne_of_flag (l : ByteStr)
    (hf : (deen_keywords_substitute_german_usascii_abbreviations l).2 = true) :
    (deen_keywords_substitute_german_usascii_abbreviations l).1 ≠ l := by
  intro he
  have := substAll_countHigh_lt l hf
  rw [he] at this
  exact Nat.lt_irrefl _ this

theorem substAll_idempotent (l : ByteStr) :
    deen_keywords_substitute_german_usascii_abbreviations
        ((deen_keywords_substitute_german_usascii_abbreviations l).1) =
      ((deen_keywords_substitute_german_usascii_abbreviations l).1, false) := by
  obtain ⟨hEE, hUE, hOE, hAE, hIE, hSS⟩ := substAll_noPair_all l
  have e1 := substDigraph_of_noPair 195 139 hEE
  have e2 := substDigraph_of_noPair 195 156 hUE
  have e3 := substDigraph_of_noPair 195 150 hOE
  have e4 := substDigraph_of_noPair 195 132 hAE
  have e5 := substDigraph_of_noPair 195 143 hIE
  have e6 := substDigraph_of_noPair 195 159 hSS
  refine Prod.ext ?_ ?_
  · rw [substAll_fst, e1, e2, e3, e4, e5, e6]
  · rw [substAll_snd, e1, e2, e3, e4, e5, e6]
    simp

theorem map_eq_self_imp {f : ByteStr → ByteStr} :
    ∀ {L : List ByteStr}, L.map f = L → ∀ k ∈ L, f k = k
  | [], _, k, hk => absurd hk (List.not_mem_nil k)
  | a :: t, h, k, hk => by
    simp only [List.map_cons, List.cons.injEq] at h
    rcases List.mem_cons.mp hk with rfl | hk2
    · exact h.1
    · exact map_eq_self_imp h.2 k hk2

theorem map_eq_self_of_mem {f : ByteStr → ByteStr} :
    ∀ {L : List ByteStr}, (∀ k ∈ L, f k = k) → L.map f = L
  | [], _ => rfl
  | a :: t, h => by
    simp only [List.map_cons]
    rw [h a (List.mem_cons_self a t),
      map_eq_self_of_mem (fun k hk => h k (List.mem_cons_of_mem a hk))]

/-- C6 (corrected).  What `deen_keywords_adjust` guarantees: every
keyword keeps its byte length (each substitution is two bytes in, two bytes
out, in place); the returned flag is true exactly when some keyword changed;
and after the call no keyword contains any of the six digraphs
`EE UE OE AE IE SS` any more.  The original claim's "replaces **every**
occurrence" fails for overlapping occurrences, where the earlier pass (in
the fixed order `EE UE OE AE IE SS`) wins — see the counterexample. -/
theorem adjust_substitutes_digraphs (K : List ByteStr) :
    List.Forall₂ (fun k k2 => k2.length = k.length) K (deen_keywords_adjust K).1 ∧
    ((deen_keywords_adjust K).2 = true ↔ (deen_keywords_adjust K).1 ≠ K) ∧
    (∀ k2 ∈ (deen_keywords_adjust K).1,
      noPair 69 69 k2 = true ∧ noPair 85 69 k2 = true ∧
      noPair 79 69 k2 = true ∧ noPair 65 69 k2 = true ∧
      noPair 73 69 k2 = true ∧ noPair 83 83 k2 = true) := by
  refine ⟨?_, ⟨?_, ?_⟩, ?_⟩
  · show List.Forall₂ _ K (K.map fun k =>
      (deen_keywords_substitute_german_usascii_abbreviations k).1)
    induction K with
    | nil => exact List.Forall₂.nil
    | cons a t ih => exact List.Forall₂.cons (substAll_length a) ih
  · intro hflag heq
    have : ∃ k ∈ K,
        (deen_keywords_substitute_german_usascii_abbreviations k).2 = true := by
      simpa [deen_keywords_adjust, List.any_eq_true] using hflag
    obtain ⟨k, hk, hkf⟩ := this
    have hne := substAll_ne_of_flag k hkf
    have hmapped : (deen_keywords_adjust K).1 = K := heq
    have : (deen_keywords_substitute_german_usascii_abbreviations k).1 = k := by
      have h2 : K.map (fun k =>
          (deen_keywords_substitute_german_usascii_abbreviations k).1) = K :=
        hmapped
      exact map_eq_self_imp h2 k hk
    exact hne this
  · intro hne
    by_contra hflag
    have hflag2 : (deen_keywords_adjust K).2 = false :=
      Bool.not_eq_true _ ▸ Bool.of_not_eq_true hflag
    have hall : ∀ k ∈ K,
        (deen_keywords_substitute_german_usascii_abbreviations k).2 = false := by
      simpa [deen_keywords_adjust, List.any_eq_false] using hflag2
    have : (deen_keywords_adjust K).1 = K :=
      map_eq_self_of_mem (fun k hk => substAll_id_of_flag_false k (hall k hk))
    exact hne this
  · intro k2 hk2
    have : ∃ k ∈ K,
        (deen_keywords_substitute_german_usascii_abbreviations k).1 = k2 := by
      simpa [deen_keywords_adjust] using hk2
    obtain ⟨k, _, rfl⟩ := this
    exact substAll_noPair_all k

/-- C6 counterexample.  On the keyword `AEE` the claim demands that the
occurrence of `AE` (at offset 0) be replaced by `Ä` (`0xC3 0x84`), but the
code's `EE` pass runs first and consumes the overlapping `EE`, producing
`A Ë` (`0x41 0xC3 0x8B`): the output contains no `Ä` even though `AE`
occurred in the input. -/
theorem adjust_counterexample :
    deen_keywords_adjust [[65, 69, 69]] = ([[65, 195, 139]], true) ∧
    noPair 65 69 [65, 69, 69] = false ∧
    noPair 195 132 [65, 195, 139] = true := by
  refine ⟨?_, by decide, by decide⟩
  decide

/-- C7 (confirmed).  `deen_keywords_adjust` is idempotent: a second
application leaves every keyword byte-identical and performs no substitution
(returns `false`), because after one application no keyword contains any of
the six digraphs. -/
theorem adjust_idempotent (K : List ByteStr) :
    deen_keywords_adjust (deen_keywords_adjust K).1 =
      ((deen_keywords_adjust K).1, false) := by
  have hid : ∀ k2 ∈ (deen_keywords_adjust K).1,
      deen_keywords_substitute_german_usascii_abbreviations k2 = (k2, false) := by
    intro k2 hk2
    have : ∃ k ∈ K,
        (deen_keywords_substitute_german_usascii_abbreviations k).1 = k2 := by
      simpa [deen_keywords_adjust] using hk2
    obtain ⟨k, _, rfl⟩ := this
    exact substAll_idempotent k
  refine Prod.ext ?_ ?_
  · show ((deen_keywords_adjust K).1).map (fun k =>
        (deen_keywords_substitute_german_usascii_abbreviations k).1) =
      (deen_keywords_adjust K).1
    exact map_eq_self_of_mem (fun k hk => by rw [hid k hk])
  · show ((deen_keywords_adjust K).1).any (fun k =>
        (deen_keywords_substitute_german_usascii_abbreviations k).2) = false
    rw [List.any_eq_false]
    intro k hk
    rw [hid k hk]
    exact Bool.false_ne_true

-- ---------------------------------------------------------------
-- Case-insensitive search and deen_keywords_all_present
-- ---------------------------------------------------------------

/-- Modelled from the spec: `deen_imatches_at` (body in `common.c`, not among
the sources) — does `f` occur in `s` at offset `pos`, comparing byte-by-byte
after uppercasing each byte of `s` (the needle is assumed already upper
case)?  The match must fit inside `s`: a truncated tail never matches a
nonempty needle. -/
def deen_imatches_at (s f : ByteStr) (pos : Nat) : Bool :=
  decide (((s.drop pos).take f.length).map upperAscii = f)

/-- Modelled from the spec: `deen_ifind_first` (body in `common.c`, not among
the sources) — the first offset in `[i, j)` at which `f` matches
case-insensitively in `s`; `none` models `DEEN_NOT_FOUND`. -/
def deen_ifind_first (s f : ByteStr) (i j : Nat) : Option Nat :=
  (List.range' i (j - i)).find? (fun pos => deen_imatches_at s f pos)

/-- Model of `deen_keywords_all_present` (`keyword.c` lines 163–173): true iff
`deen_ifind_first` over the whole input succeeds for every keyword. -/
def deen_keywords_all_present (keywords : List ByteStr) (input : ByteStr) : Bool :=
  keywords.all (fun k => (deen_ifind_first input k 0 input.length).isSome)

-- ---------------------------------------------------------------
-- Indexing: deen_index_callback (install.c lines 407–477)
-- ---------------------------------------------------------------

/-- Modelled from the spec: `DEEN_INDEXING_MIN` from `constants.h` (not among
the sources).  The spec fixes `M ≤ D` and implies `2 ≤ M` ("tokens shorter
than the indexing minimum are never prefixed", while the tokenizer only
delivers nonempty words).  Theorems are parameterised over `M` where
possible; this value instantiates counterexamples and witnesses. -/
def DEEN_INDEXING_MIN : Nat := 2

/-- Modelled from the spec: `DEEN_INDEXING_DEPTH` from `constants.h` (not
among the sources); the spec calls it "small, e.g. 3". -/
def DEEN_INDEXING_DEPTH : Nat := 3

/-- The indexing context (`deen_index_context` in `install.c` lines 60–85).
The sqlite handle is modelled by the list of flushed `(ref, prefixes)`
batches; the re-used upper-casing buffer is modelled by its value; the
`float lastprogress = -1.0f` sentinel is modelled by `none`; `events`
records the percentages passed to the progress callback in `INDEXING`
state. -/
structure deen_index_context where
  current_ref : Nat
  lastPercent : Option Nat
  prefixes : List ByteStr
  emitted : List (Nat × List ByteStr)
  events : List Nat

/-- Keep the per-ref prefix bag sorted under `strcmp`
(`deen_index_add_prefix_to_context`, `install.c` lines 310–332: append then
`qsort` with `deen_index_prefix_compare`). -/
def insertPrefixSorted (p : ByteStr) : List ByteStr → List ByteStr
  | [] => [p]
  | q :: qs => if strcmpLe p q then p :: q :: qs else q :: insertPrefixSorted p qs

/-- Model of `deen_index_add_prefix_to_context_if_not_present` (`install.c` lines
340–354): `bsearch` over the sorted bag finds the prefix iff it is a member;
if absent, it is added keeping the bag sorted. -/
def deen_index_add_prefix_if_absent (bag : List ByteStr) (p : ByteStr) :
    List ByteStr :=
  if bag.contains p then bag else insertPrefixSorted p bag

/-- Model of `deen_index_flush_context_prefixes_to_index` (`install.c` lines
383–398): a non-empty bag is written to the store as one batch for the
current ref and cleared. -/
def deen_index_flush_context_prefixes_to_index (ctx : deen_index_context) :
    deen_index_context :=
  if ctx.prefixes = [] then ctx
  else
    { ctx with
      emitted := ctx.emitted ++ [(ctx.current_ref, ctx.prefixes)],
      prefixes := [] }

/-- The ref-change prologue of `deen_index_callback` (`install.c` lines
418–435): when the ref moved past a newline, flush the bag, adopt the new
ref, and deliver an `INDEXING` progress event when the integer percentage
changed since the last report. -/
def deen_index_callback_refStep (ref percent : Nat) (ctx : deen_index_context) :
    deen_index_context :=
  if ctx.current_ref ≠ ref then
    let ctxf := deen_index_flush_context_prefixes_to_index ctx
    let ctxf2 := { ctxf with current_ref := ref }
    if ctxf2.lastPercent ≠ some percent then
      { ctxf2 with
        events := ctxf2.events ++ [percent],
        lastPercent := some percent }
    else ctxf2
  else ctx

/-- Model of `deen_index_callback` (`install.c` lines 407–477).  `cancelNow` is the
value `is_cancelled_cb` returns if it is polled during this invocation;
`percent` is `(uint8_t)(progress * 100)`.  Returns the new context, the
continue flag (`DEEN_TRUE` to keep tokenizing) and the number of times the
cancellation callback was polled (0 or 1). -/
def deen_index_callback (M D : Nat) (cancelNow : Bool) (s : ByteStr)
    (ref : Nat) (percent : Nat) (ctx : deen_index_context) :
    deen_index_context × Bool × Nat :=
  let ctx1 := deen_index_callback_refStep ref percent ctx
  if M ≤ s.length then
    if cancelNow then (ctx1, false, 1)
    else
      let upper := deen_to_upper s
      if deen_is_common_upper_word upper then (ctx1, true, 1)
      else
        let cropped := deen_utf8_crop_to_unicode_len upper D
        if M ≤ cropped.2 then
          ({ ctx1 with
             prefixes := deen_index_add_prefix_if_absent ctx1.prefixes cropped.1 },
            true, 1)
        else (ctx1, true, 1)
  else (ctx1, true, 0)

-- ---------------------------------------------------------------
-- Format check: deen_install_check_for_ding_format (install.c 116–205)
-- ---------------------------------------------------------------

inductive deen_install_check_ding_format_check_result where
  | OK
  | IS_COMPRESSED
  | IO_PROBLEM
  | TOO_SMALL
  | BAD_FORMAT
deriving DecidableEq

open deen_install_check_ding_format_check_result

/-- Does the two-byte separator token `::` (`0x3A 0x3A`) occur in the
line?  Mirrors the `strstr(&buffer[curr], "::")` test. -/
def containsSepBytes : ByteStr → Bool
  | 58 :: 58 :: _ => true
  | _ :: rest => containsSepBytes rest
  | [] => false

/-- A line the scanner ignores (`install.c` line 175): empty lines (the
line's first byte was the newline, zeroed by the scanner), lines starting
with `#`, and lines starting with a NUL byte. -/
def lineIsIgnored (line : ByteStr) : Bool :=
  match line with
  | [] => true
  | c :: _ => c = 35 || c = 0

/-- The line scan loop of `deen_install_check_for_ding_format`
(`install.c` lines 156–195), processing the buffer byte by byte: `acc`
holds the reversed bytes of the current line.  The first newline-terminated,
non-ignored line decides the result: `OK` if it contains `::` (up to its
first NUL byte, where `strstr` stops), `BAD_FORMAT` otherwise; if the buffer
ends without such a line the result is `BAD_FORMAT` (`found_ok_line` stays
false, `install.c` lines 192–194). -/
def deen_scan_ding_lines_aux (acc : ByteStr) :
    ByteStr → deen_install_check_ding_format_check_result
  | [] => BAD_FORMAT
  | b :: rest =>
    if b = 10 then
      let line := acc.reverse
      if lineIsIgnored line then deen_scan_ding_lines_aux [] rest
      else if containsSepBytes (line.takeWhile (fun c => c ≠ 0)) then OK
      else BAD_FORMAT
    else deen_scan_ding_lines_aux (b :: acc) rest

def deen_scan_ding_lines (buf : ByteStr) :
    deen_install_check_ding_format_check_result :=
  deen_scan_ding_lines_aux [] buf

/-- The `.gz` filename test (`install.c` lines 124–128): length above three
and the last three bytes are `.gz`. -/
def filenameIsGz (fn : ByteStr) : Bool :=
  decide (3 < fn.length) && decide (fn.drop (fn.length - 3) = [46, 103, 122])

/-- Model of `deen_install_check_for_ding_format` (`install.c` lines 116–205).  The
file system is abstracted: `contents` is `none` when the file cannot be
opened, otherwise the file's bytes.  `read` returns the full 4 KiB iff the
file has at least `DEEN_SIZE_CHECK_DING_BUFFER = 4096` bytes; otherwise the
result is `TOO_SMALL`. -/
def deen_install_check_for_ding_format (fn : ByteStr)
    (contents : Option ByteStr) : deen_install_check_ding_format_check_result :=
  if filenameIsGz fn then IS_COMPRESSED
  else
    match contents with
    | none => IO_PROBLEM
    | some bytes =>
      if bytes.length < 4096 then TOO_SMALL
      else deen_scan_ding_lines (bytes.take 4096)

/-- The newline-terminated lines of a buffer, in order; a trailing
incomplete line is not included (the C scanner only considers lines whose
newline lies inside the buffer). -/
def linesOfAux (acc : ByteStr) : ByteStr → List ByteStr
  | [] => []
  | b :: rest =>
    if b = 10 then acc.reverse :: linesOfAux [] rest
    else linesOfAux (b :: acc) rest

def linesOf (buf : ByteStr) : List ByteStr :=
  linesOfAux [] buf

/-- The claim's notion of a valid data line: non-comment, non-empty, and
containing the separator `::`. -/
def isDataLine (line : ByteStr) : Bool :=
  !lineIsIgnored line && containsSepBytes (line.takeWhile (fun c => c ≠ 0))

-- ---------------------------------------------------------------
-- Install orchestration: deen_install_from_path (install.c 493–716)
-- ---------------------------------------------------------------

/-- The progress states of `deen_install_progress_cb` (`install.h`). -/
inductive deen_install_state where
  | IDLE
  | STARTING
  | INDEXING
  | COMPLETED
  | ERROR
deriving DecidableEq

/-- The environment a run of `deen_install_from_path` interacts with.  File
system and sqlite are abstracted to the success of each external step;
`words` is the stream the tokenizer `deen_for_each_word_from_file` delivers
from the copied data file, as `(bytes, ref, percent)` triples.  File removal
(`deen_remove_fileobject`) is assumed to succeed.
`causeErrorInInstall` is the `DEEN_CAUSE_ERROR_IN_INSTALL` debug macro from
`constants.h` (not among the sources; off in a normal build). -/
structure deen_install_env where
  srcOpenOk : Bool
  destOpenOk : Bool
  copyOk : Bool
  dbOpenOk : Bool
  dataOpenOk : Bool
  causeErrorInInstall : Bool
  words : List (ByteStr × Nat × Nat)

/-- The observable outcome of `deen_install_from_path`.  `polls` counts the
invocations of the cancellation callback; `sawCancelled` is the OR of their
results; `loopAborted` records whether `deen_for_each_word_from_file`
returned false (the index callback stopped it); `events` is the sequence of
states delivered to the progress callback and `progressResults` the values
that callback returned (the code ignores them). -/
structure deen_install_result where
  success : Bool
  dataExists : Bool
  indexExists : Bool
  polls : Nat
  sawCancelled : Bool
  loopAborted : Bool
  events : List deen_install_state
  progressResults : List Bool

/-- Internal state threaded through the phases of the install. -/
structure InstSt where
  isError : Bool
  dataExists : Bool
  indexExists : Bool
  polls : Nat
  sawCancelled : Bool
  loopAborted : Bool
  events : List deen_install_state

/-- One poll of the cancellation callback: its result, with the counter
advanced. -/
def pollCancel (ccb : Nat → Bool) (st : InstSt) : Bool × InstSt :=
  (ccb st.polls,
   { st with
     polls := st.polls + 1,
     sawCancelled := st.sawCancelled || ccb st.polls })

/-- Model of `DEEN_INSTALL_RAISE_ERROR` (`install.c` line 490): deliver the `ERROR`
state and set `is_error`. -/
def raiseError (st : InstSt) : InstSt :=
  { st with isError := true, events := st.events ++ [deen_install_state.ERROR] }

/-- The copy stage (`install.c` lines 520–577): guarded by
`!is_error && !is_cancelled_cb(..)`; opening the destination with
`O_CREAT|O_TRUNC` creates the data file, so it exists from that point even
if a later write fails. -/
def copyPhase (env : deen_install_env) (ccb : Nat → Bool) (st : InstSt) :
    InstSt :=
  if st.isError then st
  else
    let r := pollCancel ccb st
    if r.1 then r.2
    else if !env.srcOpenOk then raiseError r.2
    else if !env.destOpenOk then raiseError r.2
    else
      let st2 := { r.2 with dataExists := true }
      if !env.copyOk then raiseError st2 else st2

/-- The sqlite-open stage (`install.c` lines 581–591): a successful
`sqlite3_open_v2` with `SQLITE_OPEN_CREATE` creates the index file. -/
def dbOpenPhase (env : deen_install_env) (ccb : Nat → Bool) (st : InstSt) :
    InstSt :=
  if st.isError then st
  else
    let r := pollCancel ccb st
    if r.1 then r.2
    else if !env.dbOpenOk then raiseError r.2
    else { r.2 with indexExists := true }

/-- The index-schema stage (`install.c` lines 593–596): `deen_index_init`
has no further observable state here, but the stage polls cancellation. -/
def indexInitPhase (ccb : Nat → Bool) (st : InstSt) : InstSt :=
  if st.isError then st
  else
    let r := pollCancel ccb st
    r.2

/-- Reopening the copied data file for reading (`install.c` lines 598–610):
the open succeeds iff the file exists and the OS cooperates; the
`DEEN_CAUSE_ERROR_IN_INSTALL` debug knob forces the error branch. -/
def dataOpenPhase (env : deen_install_env) (ccb : Nat → Bool) (st : InstSt) :
    InstSt :=
  if st.isError then st
  else
    let r := pollCancel ccb st
    if r.1 then r.2
    else if !(r.2.dataExists && env.dataOpenOk) || env.causeErrorInInstall then
      raiseError r.2
    else r.2

/-- Modelled from the spec: the driver loop of
`deen_for_each_word_from_file` (body in `common.c`, not among the sources):
the callback is invoked once per word, in order, and a `false` return stops
the processing and makes the driver return `false` (`common.h` lines
86–101, spec §4.1).  The cancellation value passed to each callback
invocation is `ccb` at the current poll counter; the counter advances only
when the callback actually polls. -/
def runIndexWords (M D : Nat) (ccb : Nat → Bool) :
    List (ByteStr × Nat × Nat) → deen_index_context × Nat →
      (deen_index_context × Nat) × Bool
  | [], st => (st, true)
  | w :: ws, st =>
    let r := deen_index_callback M D (ccb st.2) w.1 w.2.1 w.2.2 st.1
    if r.2.1 then runIndexWords M D ccb ws (r.1, st.2 + r.2.2)
    else ((r.1, st.2 + r.2.2), false)

/-- The indexing stage (`install.c` lines 612–682): run the word loop in a
transaction; if `deen_for_each_word_from_file` returns false, raise the
error.  A word-level poll can only return false because of cancellation, so
`sawCancelled` absorbs the abort flag. -/
def indexingPhase (M D : Nat) (env : deen_install_env) (ccb : Nat → Bool)
    (st : InstSt) : InstSt :=
  if st.isError then st
  else
    let r := pollCancel ccb st
    if r.1 then r.2
    else
      let run := runIndexWords M D ccb env.words (⟨0, none, [], [], []⟩, r.2.polls)
      let st2 :=
        { r.2 with
          polls := run.1.2,
          loopAborted := !run.2,
          sawCancelled := r.2.sawCancelled || !run.2,
          events := r.2.events ++
            run.1.1.events.map (fun _ => deen_install_state.INDEXING) }
      if !run.2 then raiseError st2 else st2

/-- The cleanup stage (`install.c` lines 698–702): on error, or when a
(short-circuited) poll reports cancellation, both the data file and the
index file are removed. -/
def cleanupPhase (ccb : Nat → Bool) (st : InstSt) : InstSt :=
  if st.isError then { st with dataExists := false, indexExists := false }
  else
    let r := pollCancel ccb st
    if r.1 then { r.2 with dataExists := false, indexExists := false }
    else r.2

/-- The final progress report and return value (`install.c` lines 707–715):
without error, `COMPLETED` is delivered and the function returns true; with
error, a further poll decides whether `IDLE` is delivered, and the function
returns false. -/
def finalPhase (ccb : Nat → Bool) (st : InstSt) : InstSt × Bool :=
  if !st.isError then
    ({ st with events := st.events ++ [deen_install_state.COMPLETED] }, true)
  else
    let r := pollCancel ccb st
    if r.1 then
      ({ r.2 with events := r.2.events ++ [deen_install_state.IDLE] }, false)
    else (r.2, false)

/-- Model of `deen_noop_is_cancelled_cb` (`install.c` lines 480–482). -/
def deen_noop_is_cancelled_cb : Nat → Bool := fun _ => false

/-- Model of `deen_noop_install_progress_cb` (`install.c` lines 484–487). -/
def deen_noop_install_progress_cb : deen_install_state → Bool := fun _ => true

/-- The stages of `deen_install_from_path` up to and including the indexing
loop, in source order (`install.c` lines 514–682).  The initial state has
both files removed (`deen_install_init`, line 516; its return value is
ignored by the caller) and the `STARTING` event delivered (line 514). -/
def installStages (env : deen_install_env) (ccb : Nat → Bool) : InstSt :=
  let st0 : InstSt := ⟨false, false, false, 0, false, false,
    [deen_install_state.STARTING]⟩
  let st1 := copyPhase env ccb st0
  let st2 := dbOpenPhase env ccb st1
  let st3 := indexInitPhase ccb st2
  let st4 := dataOpenPhase env ccb st3
  indexingPhase DEEN_INDEXING_MIN DEEN_INDEXING_DEPTH env ccb st4

/-- Model of `deen_install_from_path` (`install.c` lines 493–716).  `NULL` callbacks
are modelled as `none` and replaced by the no-op callbacks before any use
(lines 500–506).  The run starts by delivering `STARTING` (line 514) and
unconditionally removing any previously installed files
(`deen_install_init`, line 516), then walks the stages in source order. -/
def deen_install_from_path (env : deen_install_env)
    (progress_cb : Option (deen_install_state → Bool))
    (is_cancelled_cb : Option (Nat → Bool)) : deen_install_result :=
  let pcb := match progress_cb with
    | none => deen_noop_install_progress_cb
    | some f => f
  let ccb := match is_cancelled_cb with
    | none => deen_noop_is_cancelled_cb
    | some f => f
  let fin := finalPhase ccb (cleanupPhase ccb (installStages env ccb))
  { success := fin.2,
    dataExists := fin.1.dataExists,
    indexExists := fin.1.indexExists,
    polls := fin.1.polls,
    sawCancelled := fin.1.sawCancelled,
    loopAborted := fin.1.loopAborted,
    events := fin.1.events,
    progressResults := fin.1.events.map pcb }

-- ---------------------------------------------------------------
-- C9: deen_keywords_all_present
-- ---------------------------------------------------------------

/-- C9 (confirmed).  `deen_keywords_all_present` returns true iff every
keyword occurs somewhere in the text under the byte-wise case-insensitive
match, and it is vacuously true for the empty keyword set. -/
theorem all_present_iff_every_keyword_found (K : List ByteStr) (text : ByteStr) :
    (deen_keywords_all_present K text = true ↔
      ∀ k ∈ K, ∃ pos, pos < text.length ∧ deen_imatches_at text k pos = true) ∧
    deen_keywords_all_present [] text = true := by
  refine ⟨?_, rfl⟩
  unfold deen_keywords_all_present deen_ifind_first
  rw [List.all_eq_true]
  constructor
  · intro h k hk
    have h2 := h k hk
    rw [Option.isSome_iff_exists] at h2
    obtain ⟨pos, hpos⟩ := h2
    have hmem := List.mem_of_find?_eq_some hpos
    have hpred := List.find?_some hpos
    rw [List.mem_range'_1] at hmem
    exact ⟨pos, by omega, hpred⟩
  · intro h k hk
    obtain ⟨pos, hlt, hmatch⟩ := h k hk
    rw [List.find?_isSome]
    exact ⟨pos, by rw [List.mem_range'_1]; omega, hmatch⟩

-- ---------------------------------------------------------------
-- UTF-8 facts used by the indexing claims
-- ---------------------------------------------------------------

theorem to_upper_length : ∀ l : ByteStr, (deen_to_upper l).length = l.length
  | [] => rfl
  | [_] => rfl
  | c :: d :: rest => by
    simp only [deen_to_upper]
    split_ifs with h
    · simp [to_upper_length rest]
    · simp [to_upper_length (d :: rest)]

/-- A valid UTF-8 string has at least one byte per code point. -/
theorem seqCountAux_le_length : ∀ (skip : Nat) (l : ByteStr) (n : Nat),
    seqCountAux skip l = some n → n ≤ l.length
  | 0, [], n, h => by
    simp only [seqCountAux, Option.some.injEq] at h
    omega
  | _ + 1, [], n, h => by simp [seqCountAux] at h
  | 0, c :: rest, n, h => by
    simp only [seqCountAux] at h
    cases hc : utf8LeadLen c with
    | none => rw [hc] at h; simp at h
    | some k =>
      rw [hc, Option.map_eq_some'] at h
      obtain ⟨m, hm, hmn⟩ := h
      have := seqCountAux_le_length (k - 1) rest m hm
      simp only [List.length_cons]
      omega
  | skip + 1, c :: rest, n, h => by
    simp only [seqCountAux] at h
    have := seqCountAux_le_length skip rest n h
    simp only [List.length_cons]
    omega

theorem seqCount_le_length (l : ByteStr) (n : Nat)
    (h : deen_utf8_sequences_count l = some n) : n ≤ l.length :=
  seqCountAux_le_length 0 l n h

/-- Passing over `skip` available bytes is dropping them. -/
theorem seqCountAux_skip_drop : ∀ (skip : Nat) (l : ByteStr),
    skip ≤ l.length → seqCountAux skip l = seqCountAux 0 (l.drop skip)
  | 0, l, _ => by simp
  | skip + 1, [], h => by simp at h
  | skip + 1, c :: rest, h => by
    simp only [seqCountAux, List.drop_succ_cons]
    exact seqCountAux_skip_drop skip rest (by simpa using h)

/-- Passing over more bytes than remain is an incomplete sequence. -/
theorem seqCountAux_skip_none : ∀ (skip : Nat) (l : ByteStr),
    l.length < skip → seqCountAux skip l = none
  | 0, l, h => by simp at h
  | _ + 1, [], _ => rfl
  | skip + 1, c :: rest, h => by
    simp only [seqCountAux]
    exact seqCountAux_skip_none skip rest (by simp at h; omega)

/-- On valid UTF-8 the crop count is the minimum of the requested length and
the code-point count. -/
theorem crop_count_min : ∀ (l : ByteStr) (D n : Nat),
    deen_utf8_sequences_count l = some n →
    (deen_utf8_crop_to_unicode_len l D).2 = min D n
  | l, 0, n, _ => by
    have : deen_utf8_crop_to_unicode_len l 0 = ([], 0) := by
      cases l <;> simp [deen_utf8_crop_to_unicode_len]
    simp [this]
  | [], D + 1, n, h => by
    simp only [deen_utf8_sequences_count, seqCountAux, Option.some.injEq] at h
    simp [deen_utf8_crop_to_unicode_len]
    omega
  | c :: rest, D + 1, n, h => by
    simp only [deen_utf8_sequences_count, seqCountAux] at h
    simp only [deen_utf8_crop_to_unicode_len]
    cases hc : utf8LeadLen c with
    | none => rw [hc] at h; simp at h
    | some k =>
      rw [hc] at h
      dsimp only at h ⊢
      rw [Option.map_eq_some'] at h
      obtain ⟨m, hm, hmn⟩ := h
      have hbytes : k - 1 ≤ rest.length := by
        by_contra hgt
        rw [seqCountAux_skip_none (k - 1) rest (by omega)] at hm
        cases hm
      rw [seqCountAux_skip_drop (k - 1) rest hbytes] at hm
      have hrec := crop_count_min (rest.drop (k - 1)) D m hm
      rw [if_neg (by omega)]
      simp only [hrec]
      omega

-- ---------------------------------------------------------------
-- Facts about the per-ref prefix bag-- ---------------------------------------------------------------
-- Facts about the per-ref prefix bag
-- ---------------------------------------------------------------

theorem mem_insertPrefixSorted {q p : ByteStr} :
    ∀ {l : List ByteStr}, q ∈ insertPrefixSorted p l ↔ q = p ∨ q ∈ l
  | [] => by simp [insertPrefixSorted]
  | b :: bs => by
    simp only [insertPrefixSorted]
    split_ifs with h
    · simp [or_comm, or_assoc]
    · simp only [List.mem_cons, mem_insertPrefixSorted (l := bs)]
      tauto

theorem mem_add_prefix_if_absent {bag : List ByteStr} {p q : ByteStr} :
    q ∈ deen_index_add_prefix_if_absent bag p ↔ q ∈ bag ∨ q = p := by
  unfold deen_index_add_prefix_if_absent
  split_ifs with h
  · have hp : p ∈ bag := by simpa using h
    constructor
    · exact Or.inl
    · rintro (hq | rfl)
      · exact hq
      · exact hp
  · rw [mem_insertPrefixSorted]
    tauto

/-- After the ref-change prologue the bag is the old bag when the ref is
unchanged, and empty (just flushed) otherwise. -/
theorem refStep_prefixes (ref percent : Nat) (ctx : deen_index_context) :
    (deen_index_callback_refStep ref percent ctx).prefixes =
      if ctx.current_ref = ref then ctx.prefixes else [] := by
  unfold deen_index_callback_refStep deen_index_flush_context_prefixes_to_index
  by_cases h : ctx.current_ref = ref
  · simp [h]
  · simp only [h, if_false, ne_eq, not_false_iff, if_true]
    split_ifs <;> simp_all

/-- The bag after an uncancelled `deen_index_callback` invocation: the
prefix is inserted (if absent) exactly when the word passes the byte-length
gate, the common-word filter and the cropped-length gate. -/
theorem index_callback_bag (M D : Nat) (s : ByteStr) (ref percent : Nat)
    (ctx : deen_index_context) :
    ((deen_index_callback M D false s ref percent ctx).1).prefixes =
      if M ≤ s.length ∧ deen_is_common_upper_word (deen_to_upper s) = false ∧
          M ≤ (deen_utf8_crop_to_unicode_len (deen_to_upper s) D).2 then
        deen_index_add_prefix_if_absent
          (deen_index_callback_refStep ref percent ctx).prefixes
          (deen_utf8_crop_to_unicode_len (deen_to_upper s) D).1
      else (deen_index_callback_refStep ref percent ctx).prefixes := by
  simp only [deen_index_callback, Bool.false_eq_true, if_false]
  split_ifs with h1 h2 h3 <;> simp_all

/-- C3 (confirmed).  For an uncancelled word delivered by the tokenizer,
the prefix — the uppercased word cropped to at most `D` code points — is in
the current ref's bag after the callback iff it was already there or the
uppercased word is not a common word and has at least `M` code points
(`M ≤ D`); in particular words with fewer than `M` code points never
contribute a prefix. -/
theorem index_callback_adds_prefix_iff (M D : Nat) (s : ByteStr)
    (ref percent : Nat) (ctx : deen_index_context) (p : ByteStr)
    (hMD : M ≤ D) (hvalid : validUtf8 (deen_to_upper s) = true) :
    p ∈ ((deen_index_callback M D false s ref percent ctx).1).prefixes ↔
      (p ∈ (if ctx.current_ref = ref then ctx.prefixes else []) ∨
        (deen_is_common_upper_word (deen_to_upper s) = false ∧
          M ≤ seqCountE (deen_to_upper s) ∧
          p = (deen_utf8_crop_to_unicode_len (deen_to_upper s) D).1)) := by
  obtain ⟨n, hn⟩ := Option.isSome_iff_exists.mp hvalid
  have hcount : seqCountE (deen_to_upper s) = n := by simp [seqCountE, hn]
  have hlen : n ≤ s.length := by
    have := seqCount_le_length _ n hn
    rwa [to_upper_length] at this
  have hcrop := crop_count_min (deen_to_upper s) D n hn
  have hbag := index_callback_bag M D s ref percent ctx
  have hb0 := refStep_prefixes ref percent ctx
  rw [hbag, hb0]
  by_cases hcommon : deen_is_common_upper_word (deen_to_upper s) = false
  · by_cases hM : M ≤ n
    · rw [if_pos ⟨by omega, hcommon, by omega⟩, mem_add_prefix_if_absent]
      simp [hcommon, hcount, hM]
    · rw [if_neg (by rw [hcrop]; omega)]
      simp only [hcount]
      have : ¬ (M ≤ n) := hM
      tauto
  · rw [if_neg (by tauto)]
    tauto

/-- Witness for `index_callback_adds_prefix_iff` at `M = 2`, `D = 3`, the
word `haus`, and the empty initial context. -/
theorem index_callback_adds_prefix_iff_witness :
    [72, 65, 85] ∈ ((deen_index_callback DEEN_INDEXING_MIN DEEN_INDEXING_DEPTH
        false [104, 97, 117, 115] 0 0 ⟨0, none, [], [], []⟩).1).prefixes ↔
      ([72, 65, 85] ∈
          (if (⟨0, none, [], [], []⟩ : deen_index_context).current_ref = 0 then
            (⟨0, none, [], [], []⟩ : deen_index_context).prefixes else []) ∨
        (deen_is_common_upper_word (deen_to_upper [104, 97, 117, 115]) = false ∧
          DEEN_INDEXING_MIN ≤ seqCountE (deen_to_upper [104, 97, 117, 115]) ∧
          [72, 65, 85] =
            (deen_utf8_crop_to_unicode_len (deen_to_upper [104, 97, 117, 115])
              DEEN_INDEXING_DEPTH).1)) :=
  index_callback_adds_prefix_iff DEEN_INDEXING_MIN DEEN_INDEXING_DEPTH
    [104, 97, 117, 115] 0 0 ⟨0, none, [], [], []⟩ [72, 65, 85]
    (by decide) (by decide)

/-- C8 (corrected).  The cancellation callback is polled exactly once
for a word of byte length at least `DEEN_INDEXING_MIN` and not at all for a
shorter word; the callback tells the tokenizer to stop (returns false)
exactly when it polled and the poll reported cancellation; and under
cancellation nothing is added to the bag (it stays as left by the
ref-change prologue), so indexing never proceeds past the word at which
cancellation was observed. -/
theorem index_callback_poll_per_word (M D : Nat) (c : Bool) (s : ByteStr)
    (ref percent : Nat) (ctx : deen_index_context) :
    ((deen_index_callback M D c s ref percent ctx).2.2 =
      if M ≤ s.length then 1 else 0) ∧
    ((deen_index_callback M D c s ref percent ctx).2.1 = false ↔
      (c = true ∧ M ≤ s.length)) ∧
    ((deen_index_callback M D true s ref percent ctx).1).prefixes =
      (if ctx.current_ref = ref then ctx.prefixes else []) := by
  refine ⟨?_, ?_, ?_⟩
  · simp only [deen_index_callback]
    split_ifs <;> rfl
  · simp only [deen_index_callback]
    split_ifs with h1 h2 h3 h4 <;> simp_all
  · simp only [deen_index_callback]
    by_cases h1 : M ≤ s.length
    · rw [if_pos h1]
      simpa using refStep_prefixes ref percent ctx
    · rw [if_neg h1]
      simpa using refStep_prefixes ref percent ctx

/-- C8 counterexample.  The word `A` (one byte, shorter than
`DEEN_INDEXING_MIN`) is delivered by the tokenizer, yet the cancellation
callback is not polled at all during its `deen_index_callback` invocation
(`install.c` line 437 gates the poll behind `len >= DEEN_INDEXING_MIN`),
and processing continues even though cancellation is already signalled. -/
theorem index_callback_poll_counterexample :
    (deen_index_callback DEEN_INDEXING_MIN DEEN_INDEXING_DEPTH true [65] 0 0
      ⟨0, none, [], [], []⟩).2.2 = 0 ∧
    (deen_index_callback DEEN_INDEXING_MIN DEEN_INDEXING_DEPTH true [65] 0 0
      ⟨0, none, [], [], []⟩).2.1 = true := by
  exact ⟨rfl, rfl⟩

-- ---------------------------------------------------------------
-- C4: the format check
-- ---------------------------------------------------------------

/-- The scan loop decides by the first newline-terminated line that is not
ignored: `OK` if it contains the separator, `BAD_FORMAT` if it does not or
if no such line exists. -/
theorem scan_aux_characterization : ∀ (buf : ByteStr) (acc : ByteStr),
    deen_scan_ding_lines_aux acc buf =
      (match (linesOfAux acc buf).find? (fun l => !lineIsIgnored l) with
        | none => BAD_FORMAT
        | some line =>
          if containsSepBytes (line.takeWhile (fun c => c ≠ 0)) then OK
          else BAD_FORMAT)
  | [], acc => by simp [deen_scan_ding_lines_aux, linesOfAux]
  | b :: rest, acc => by
    simp only [deen_scan_ding_lines_aux, linesOfAux]
    by_cases hb : b = 10
    · rw [if_pos hb, if_pos hb]
      by_cases hig : lineIsIgnored acc.reverse = true
      · rw [if_pos hig, scan_aux_characterization rest []]
        rw [List.find?_cons_of_neg _ (by simp [hig])]
      · rw [if_neg hig, List.find?_cons_of_pos _ (by simp [hig])]
    · rw [if_neg hb, if_neg hb]
      exact scan_aux_characterization rest (b :: acc)

/-- For a readable, non-gzip file of at least 4 KiB, the check is the line
scan over the first 4 KiB. -/
theorem check_format_eq_scan (fn contents : ByteStr)
    (hgz : filenameIsGz fn = false) (hlen : 4096 ≤ contents.length) :
    deen_install_check_for_ding_format fn (some contents) =
      deen_scan_ding_lines (contents.take 4096) := by
  unfold deen_install_check_for_ding_format
  rw [if_neg (by simp [hgz])]
  show (if contents.length < 4096 then TOO_SMALL
    else deen_scan_ding_lines (contents.take 4096)) = _
  rw [if_neg (by omega)]

/-- C4 (corrected).  For a readable, non-gzip, large-enough file the
check is decided by the *first* non-ignored newline-terminated line of the
first 4 KiB: `OK` if that line contains `::`, and `BAD_FORMAT` if it does
not — even when a valid data line occurs later in the 4 KiB — or if no such
line exists. -/
theorem check_format_first_line_decides (fn contents : ByteStr)
    (hgz : filenameIsGz fn = false) (hlen : 4096 ≤ contents.length) :
    deen_install_check_for_ding_format fn (some contents) =
      (match (linesOf (contents.take 4096)).find? (fun l => !lineIsIgnored l) with
        | none => BAD_FORMAT
        | some line =>
          if containsSepBytes (line.takeWhile (fun c => c ≠ 0)) then OK
          else BAD_FORMAT) := by
  rw [check_format_eq_scan fn contents hgz hlen]
  exact scan_aux_characterization (contents.take 4096) []

/-- A well-formed 4 KiB buffer: one data line, then comment padding. -/
def goodDingBuffer : ByteStr :=
  [72, 97, 117, 115, 32, 58, 58, 32, 104, 111, 117, 115, 101, 10] ++
    List.replicate 4082 35

theorem goodDingBuffer_length : 4096 ≤ goodDingBuffer.length := by
  simp only [goodDingBuffer, List.length_append, List.length_replicate,
    List.length_cons, List.length_nil]
  omega

/-- Witness for `check_format_first_line_decides` on a 4096-byte buffer
whose first line is `Haus :: house`. -/
theorem check_format_first_line_decides_witness :
    filenameIsGz [100, 46, 116, 120, 116] = false ∧
    4096 ≤ goodDingBuffer.length ∧
    deen_install_check_for_ding_format [100, 46, 116, 120, 116]
        (some goodDingBuffer) =
      (match (linesOf (goodDingBuffer.take 4096)).find?
          (fun l => !lineIsIgnored l) with
        | none => BAD_FORMAT
        | some line =>
          if containsSepBytes (line.takeWhile (fun c => c ≠ 0)) then OK
          else BAD_FORMAT) :=
  ⟨by decide, goodDingBuffer_length,
    check_format_first_line_decides [100, 46, 116, 120, 116] goodDingBuffer
      (by decide) goodDingBuffer_length⟩

/-- A 4096-byte buffer whose first line `X` is junk and whose second line
`A :: B` is a valid data line; `#` padding fills the rest. -/
def cexDingBuffer : ByteStr :=
  [88, 10] ++ [65, 32, 58, 58, 32, 66, 10] ++ List.replicate 4087 35

theorem cexDingBuffer_length : cexDingBuffer.length ≤ 4096 := by
  simp only [cexDingBuffer, List.length_append, List.length_replicate,
    List.length_cons, List.length_nil]
  omega

theorem cexDingBuffer_take : cexDingBuffer.take 4096 = cexDingBuffer :=
  List.take_of_length_le cexDingBuffer_length

/-- C4 counterexample.  `cexDingBuffer` contains a valid data line
(`A :: B`) within the first 4 KiB, so the claim says the check returns
`OK`; the code returns `BAD_FORMAT` because the first non-comment line `X`
lacks the separator. -/
theorem check_format_counterexample :
    deen_install_check_for_ding_format [100, 46, 116, 120, 116]
      (some cexDingBuffer) = BAD_FORMAT ∧
    (linesOf (cexDingBuffer.take 4096)).any isDataLine = true := by
  constructor
  · rw [check_format_eq_scan _ _ (by decide) (by
      simp only [cexDingBuffer, List.length_append, List.length_replicate,
        List.length_cons, List.length_nil]
      omega), cexDingBuffer_take]
    decide
  · rw [cexDingBuffer_take]
    decide

-- ---------------------------------------------------------------
-- Phase lemmas for the install orchestration
-- ---------------------------------------------------------------

theorem copyPhase_loopAborted (env : deen_install_env) (ccb : Nat → Bool)
    (st : InstSt) : (copyPhase env ccb st).loopAborted = st.loopAborted := by
  simp only [copyPhase, pollCancel, raiseError]
  split_ifs <;> rfl

theorem dbOpenPhase_loopAborted (env : deen_install_env) (ccb : Nat → Bool)
    (st : InstSt) : (dbOpenPhase env ccb st).loopAborted = st.loopAborted := by
  simp only [dbOpenPhase, pollCancel, raiseError]
  split_ifs <;> rfl

theorem indexInitPhase_loopAborted (ccb : Nat → Bool) (st : InstSt) :
    (indexInitPhase ccb st).loopAborted = st.loopAborted := by
  simp only [indexInitPhase, pollCancel]
  split_ifs <;> rfl

theorem dataOpenPhase_loopAborted (env : deen_install_env) (ccb : Nat → Bool)
    (st : InstSt) : (dataOpenPhase env ccb st).loopAborted = st.loopAborted := by
  simp only [dataOpenPhase, pollCancel, raiseError]
  split_ifs <;> rfl

theorem indexingPhase_loopAborted_isError (M D : Nat)
    (env : deen_install_env) (ccb : Nat → Bool) (st : InstSt)
    (h : st.loopAborted = true → st.isError = true) :
    (indexingPhase M D env ccb st).loopAborted = true →
      (indexingPhase M D env ccb st).isError = true := by
  simp only [indexingPhase, pollCancel, raiseError]
  split_ifs with h1 h2 h3
  · exact h
  · exact h
  · intro _
    rfl
  · intro hla
    exact absurd hla h3

theorem cleanupPhase_isError (ccb : Nat → Bool) (st : InstSt) :
    (cleanupPhase ccb st).isError = st.isError := by
  simp only [cleanupPhase, pollCancel]
  split_ifs <;> rfl

theorem cleanupPhase_loopAborted (ccb : Nat → Bool) (st : InstSt) :
    (cleanupPhase ccb st).loopAborted = st.loopAborted := by
  simp only [cleanupPhase, pollCancel]
  split_ifs <;> rfl

theorem cleanupPhase_polls (ccb : Nat → Bool) (st : InstSt) :
    (cleanupPhase ccb st).polls =
      if st.isError = true then st.polls else st.polls + 1 := by
  simp only [cleanupPhase, pollCancel]
  split_ifs <;> rfl

theorem cleanupPhase_removes (ccb : Nat → Bool) (st : InstSt)
    (h : st.isError = true ∨ ccb st.polls = true) :
    (cleanupPhase ccb st).dataExists = false ∧
    (cleanupPhase ccb st).indexExists = false := by
  simp only [cleanupPhase, pollCancel]
  split_ifs with h1 h2
  · exact ⟨rfl, rfl⟩
  · exact ⟨rfl, rfl⟩
  · rcases h with h | h
    · exact absurd h h1
    · exact absurd h h2

theorem finalPhase_success (ccb : Nat → Bool) (st : InstSt) :
    (finalPhase ccb st).2 = !st.isError := by
  simp only [finalPhase, pollCancel]
  split_ifs with h1 h2 <;> simp_all

theorem finalPhase_dataExists (ccb : Nat → Bool) (st : InstSt) :
    (finalPhase ccb st).1.dataExists = st.dataExists := by
  simp only [finalPhase, pollCancel]
  split_ifs <;> rfl

theorem finalPhase_indexExists (ccb : Nat → Bool) (st : InstSt) :
    (finalPhase ccb st).1.indexExists = st.indexExists := by
  simp only [finalPhase, pollCancel]
  split_ifs <;> rfl

theorem finalPhase_loopAborted (ccb : Nat → Bool) (st : InstSt) :
    (finalPhase ccb st).1.loopAborted = st.loopAborted := by
  simp only [finalPhase, pollCancel]
  split_ifs <;> rfl

theorem finalPhase_polls (ccb : Nat → Bool) (st : InstSt) :
    (finalPhase ccb st).1.polls =
      if st.isError = true then st.polls + 1 else st.polls := by
  simp only [finalPhase, pollCancel]
  split_ifs with h1 h2 <;> simp_all

theorem installStages_loopAborted_isError (env : deen_install_env)
    (ccb : Nat → Bool) :
    (installStages env ccb).loopAborted = true →
      (installStages env ccb).isError = true := by
  unfold installStages
  apply indexingPhase_loopAborted_isError
  intro hla
  rw [dataOpenPhase_loopAborted, indexInitPhase_loopAborted,
    dbOpenPhase_loopAborted, copyPhase_loopAborted] at hla
  simp at hla

/-- After the cleanup and final stages, if the sticky cancellation flag has
fired by the last performed poll, both files are gone. -/
theorem tail_phases_cancel (cancel : Nat → Bool) (st : InstSt)
    (hsticky : ∀ i j, i ≤ j → cancel i = true → cancel j = true)
    (hfired : ∃ i, i < (finalPhase cancel (cleanupPhase cancel st)).1.polls ∧
      cancel i = true) :
    (finalPhase cancel (cleanupPhase cancel st)).1.dataExists = false ∧
    (finalPhase cancel (cleanupPhase cancel st)).1.indexExists = false := by
  obtain ⟨i, hi, hc⟩ := hfired
  rw [finalPhase_dataExists, finalPhase_indexExists]
  apply cleanupPhase_removes
  cases hE : st.isError with
  | true => exact Or.inl rfl
  | false =>
    right
    have hp : (finalPhase cancel (cleanupPhase cancel st)).1.polls =
        st.polls + 1 := by
      rw [finalPhase_polls, cleanupPhase_isError, cleanupPhase_polls, hE]
      simp
    rw [hp] at hi
    exact hsticky i st.polls (by omega) hc

/-- C5 (corrected).  With a sticky cancellation flag that fires during
the run, neither the copied data file nor the index file exists when
`deen_install_from_path` returns; but the function returns false only when
the run errored — in particular when the cancellation was observed inside
the indexing word loop — and returns true when cancellation struck only at
the stage-boundary polls (see the counterexample). -/
theorem install_cancelled_removes_files (env : deen_install_env)
    (p? : Option (deen_install_state → Bool)) (cancel : Nat → Bool)
    (hsticky : ∀ i j, i ≤ j → cancel i = true → cancel j = true)
    (hfired : ∃ i, i < (deen_install_from_path env p? (some cancel)).polls ∧
      cancel i = true) :
    (deen_install_from_path env p? (some cancel)).dataExists = false ∧
    (deen_install_from_path env p? (some cancel)).indexExists = false ∧
    ((deen_install_from_path env p? (some cancel)).loopAborted = true →
      (deen_install_from_path env p? (some cancel)).success = false) := by
  have hfiles := tail_phases_cancel cancel (installStages env cancel) hsticky
    (by exact hfired)
  refine ⟨hfiles.1, hfiles.2, ?_⟩
  show (finalPhase cancel (cleanupPhase cancel (installStages env cancel))).1.loopAborted
      = true →
    (finalPhase cancel (cleanupPhase cancel (installStages env cancel))).2 = false
  rw [finalPhase_loopAborted, cleanupPhase_loopAborted, finalPhase_success,
    cleanupPhase_isError]
  intro hla
  rw [installStages_loopAborted_isError env cancel hla]
  rfl

/-- An environment in which every external step succeeds and the data file
is empty of words. -/
def installEnvOk : deen_install_env := ⟨true, true, true, true, true, false, []⟩

/-- Witness for `install_cancelled_removes_files` with an
always-cancelled callback on an otherwise error-free environment. -/
theorem install_cancelled_removes_files_witness :
    (deen_install_from_path installEnvOk none (some (fun _ => true))).dataExists
        = false ∧
    (deen_install_from_path installEnvOk none (some (fun _ => true))).indexExists
        = false ∧
    ((deen_install_from_path installEnvOk none
        (some (fun _ => true))).loopAborted = true →
      (deen_install_from_path installEnvOk none
        (some (fun _ => true))).success = false) :=
  install_cancelled_removes_files installEnvOk none (fun _ => true)
    (fun _ _ _ h => h) ⟨0, by decide, rfl⟩

/-- C5 counterexample.  With cancellation reported from the very first
poll, the install skips every stage, removes the files — and returns
`DEEN_TRUE` (success), not the failure the claim requires (`install.c`
line 715: `return !is_error`, and `is_error` is never set on this path). -/
theorem install_cancelled_returns_true_counterexample :
    (deen_install_from_path installEnvOk none (some (fun _ => true))).success
        = true ∧
    (deen_install_from_path installEnvOk none
      (some (fun _ => true))).sawCancelled = true := by
  exact ⟨rfl, rfl⟩

theorem index_callback_cont_true (M D : Nat) (s : ByteStr)
    (ref percent : Nat) (ctx : deen_index_context) :
    (deen_index_callback M D false s ref percent ctx).2.1 = true := by
  simp only [deen_index_callback]
  split_ifs <;> simp_all

theorem deen_noop_is_cancelled_eq (n : Nat) :
    deen_noop_is_cancelled_cb n = false := rfl

theorem runIndexWords_noop_ok (M D : Nat) :
    ∀ (ws : List (ByteStr × Nat × Nat)) (st : deen_index_context × Nat),
      (runIndexWords M D deen_noop_is_cancelled_cb ws st).2 = true
  | [], _ => rfl
  | w :: ws, st => by
    simp only [runIndexWords, deen_noop_is_cancelled_eq]
    rw [if_pos (index_callback_cont_true M D w.1 w.2.1 w.2.2 st.1)]
    exact runIndexWords_noop_ok M D ws _

/-- C10 (confirmed).  `deen_install_from_path` accepts `NULL` (`none`)
for either callback: the no-op defaults are substituted before any use, so
the run equals the run with the no-op callbacks passed explicitly; and with
a `NULL` cancellation callback no poll ever reports cancellation, the word
loop never aborts, and an otherwise error-free install completes with both
files installed. -/
theorem install_null_callbacks (env : deen_install_env)
    (p? : Option (deen_install_state → Bool))
    (henv : env.srcOpenOk = true ∧ env.destOpenOk = true ∧ env.copyOk = true ∧
      env.dbOpenOk = true ∧ env.dataOpenOk = true ∧
      env.causeErrorInInstall = false) :
    deen_install_from_path env none none =
      deen_install_from_path env (some deen_noop_install_progress_cb)
        (some deen_noop_is_cancelled_cb) ∧
    (deen_install_from_path env p? none).sawCancelled = false ∧
    (deen_install_from_path env p? none).loopAborted = false ∧
    (deen_install_from_path env p? none).success = true ∧
    (deen_install_from_path env p? none).dataExists = true ∧
    (deen_install_from_path env p? none).indexExists = true := by
  obtain ⟨e1, e2, e3, e4, e5, e6⟩ := henv
  refine ⟨rfl, ?_, ?_, ?_, ?_, ?_⟩ <;>
  · simp [deen_install_from_path, installStages, copyPhase, dbOpenPhase,
      indexInitPhase, dataOpenPhase, indexingPhase, cleanupPhase, finalPhase,
      pollCancel, raiseError, deen_noop_is_cancelled_eq, e1, e2, e3, e4, e5,
      e6, runIndexWords_noop_ok]

/-- Witness for `install_null_callbacks` on the all-success environment. -/
theorem install_null_callbacks_witness :
    deen_install_from_path installEnvOk none none =
      deen_install_from_path installEnvOk (some deen_noop_install_progress_cb)
        (some deen_noop_is_cancelled_cb) ∧
    (deen_install_from_path installEnvOk none none).sawCancelled = false ∧
    (deen_install_from_path installEnvOk none none).loopAborted = false ∧
    (deen_install_from_path installEnvOk none none).success = true ∧
    (deen_install_from_path installEnvOk none none).dataExists = true ∧
    (deen_install_from_path installEnvOk none none).indexExists = true :=
  install_null_callbacks installEnvOk none
    ⟨rfl, rfl, rfl, rfl, rfl, rfl⟩

end Deen
